import Mathlib

/-
Verification of the stability_sdk utility module (src/stability_sdk/utils.py):
enum lookup tables, filename truncation, keyframe parsing and interpolation,
the transform response pipeline, and the warp operation builders.

Machine integers are modelled as Int/Nat, Python floats as rationals, Python
dicts as association lists with last-write-wins update, raised exceptions as
Except values, and the streaming RPC response as the list of response messages
it yields.
-/

namespace StabilitySdk

/-- Diffusion sampler enum values of the generation protocol schema. -/
inductive DiffusionSampler where
  | SAMPLER_DDIM
  | SAMPLER_DDPM
  | SAMPLER_K_EULER
  | SAMPLER_K_EULER_ANCESTRAL
  | SAMPLER_K_HEUN
  | SAMPLER_K_DPM_2
  | SAMPLER_K_DPM_2_ANCESTRAL
  | SAMPLER_K_LMS
  deriving DecidableEq

/-- Guidance preset enum values of the generation protocol schema. -/
inductive GuidancePreset where
  | GUIDANCE_PRESET_NONE
  | GUIDANCE_PRESET_SIMPLE
  | GUIDANCE_PRESET_FAST_BLUE
  | GUIDANCE_PRESET_FAST_GREEN
  deriving DecidableEq

/-- Color match mode enum values of the generation protocol schema. -/
inductive ColorMatchMode where
  | COLOR_MATCH_HSV
  | COLOR_MATCH_LAB
  | COLOR_MATCH_RGB
  deriving DecidableEq

/-- Border mode enum values of the generation protocol schema. -/
inductive BorderMode where
  | BORDER_REPLICATE
  | BORDER_REFLECT
  | BORDER_WRAP
  | BORDER_ZERO
  deriving DecidableEq

/-- The SAMPLERS table: sampler name to protocol enum value. -/
def SAMPLERS : List (String × DiffusionSampler) :=
  [("ddim", .SAMPLER_DDIM),
   ("plms", .SAMPLER_DDPM),
   ("k_euler", .SAMPLER_K_EULER),
   ("k_euler_ancestral", .SAMPLER_K_EULER_ANCESTRAL),
   ("k_heun", .SAMPLER_K_HEUN),
   ("k_dpm_2", .SAMPLER_K_DPM_2),
   ("k_dpm_2_ancestral", .SAMPLER_K_DPM_2_ANCESTRAL),
   ("k_lms", .SAMPLER_K_LMS)]

/-- The GUIDANCE_PRESETS table: preset name to protocol enum value. -/
def GUIDANCE_PRESETS : List (String × GuidancePreset) :=
  [("none", .GUIDANCE_PRESET_NONE),
   ("simple", .GUIDANCE_PRESET_SIMPLE),
   ("fastblue", .GUIDANCE_PRESET_FAST_BLUE),
   ("fastgreen", .GUIDANCE_PRESET_FAST_GREEN)]

/-- The COLOR_SPACES table: color space name to protocol enum value. -/
def COLOR_SPACES : List (String × ColorMatchMode) :=
  [("hsv", .COLOR_MATCH_HSV),
   ("lab", .COLOR_MATCH_LAB),
   ("rgb", .COLOR_MATCH_RGB)]

/-- The BORDER_MODES_2D table: border mode name to protocol enum value. -/
def BORDER_MODES_2D : List (String × BorderMode) :=
  [("replicate", .BORDER_REPLICATE),
   ("reflect", .BORDER_REFLECT),
   ("wrap", .BORDER_WRAP),
   ("zero", .BORDER_ZERO)]

/-- Border mode names supported only by the 2D transform. -/
def _2d_only_modes : List String := ["wrap"]

/-- The BORDER_MODES_3D table, derived from the 2D table by dropping the
2D-only modes, exactly as in the source dict comprehension. -/
def BORDER_MODES_3D : List (String × BorderMode) :=
  BORDER_MODES_2D.filter (fun kv => !(_2d_only_modes.contains kv.1))

/-- Python `str.lower` restricted to ASCII case mapping: lowercase every
character of the string. -/
def pyLower (s : String) : String :=
  ⟨s.data.map Char.toLower⟩

/-- Python `str.strip` with no argument: remove leading and trailing
whitespace characters. -/
def pyStrip (s : String) : String :=
  ⟨((s.data.dropWhile Char.isWhitespace).reverse.dropWhile
      Char.isWhitespace).reverse⟩

/-- `border_mode_from_str_2d`: lowercase and strip the input, look it up in
BORDER_MODES_2D, raising ValueError for an unknown key. -/
def border_mode_from_str_2d (s : String) : Except String BorderMode :=
  match BORDER_MODES_2D.lookup (pyStrip (pyLower s)) with
  | some r => .ok r
  | none => .error ("invalid 2d border mode " ++ s)

/-- `border_mode_from_str_3d`: lowercase and strip the input, look it up in
BORDER_MODES_3D, raising ValueError for an unknown key. -/
def border_mode_from_str_3d (s : String) : Except String BorderMode :=
  match BORDER_MODES_3D.lookup (pyStrip (pyLower s)) with
  | some r => .ok r
  | none => .error ("invalid 3d border mode " ++ s)

/-- `color_match_from_string`: lowercase and strip the input, look it up in
COLOR_SPACES, raising ValueError for an unknown key. -/
def color_match_from_string (s : String) : Except String ColorMatchMode :=
  match COLOR_SPACES.lookup (pyStrip (pyLower s)) with
  | some r => .ok r
  | none => .error ("invalid color space: " ++ s)

/-- `guidance_from_string`: lowercase and strip the input, look it up in
GUIDANCE_PRESETS, raising ValueError for an unknown key. -/
def guidance_from_string (s : String) : Except String GuidancePreset :=
  match GUIDANCE_PRESETS.lookup (pyStrip (pyLower s)) with
  | some r => .ok r
  | none => .error ("invalid guidance preset: " ++ s)

/-- `get_sampler_from_str`: lowercase and strip the input, look it up in
SAMPLERS, raising ValueError for an unknown key. -/
def get_sampler_from_str (s : String) : Except String DiffusionSampler :=
  match SAMPLERS.lookup (pyStrip (pyLower s)) with
  | some r => .ok r
  | none => .error ("invalid sampler: " ++ s)

/-- Python string slicing `s[:n]`: a nonnegative bound takes the first `n`
characters (clamped to the length); a negative bound drops the last `-n`
characters (clamped to the empty string). -/
def pySliceTo (s : String) (n : ℤ) : String :=
  if 0 ≤ n then ⟨s.data.take n.toNat⟩ else ⟨s.data.take (s.length - (-n).toNat)⟩

/-- `truncate_fit`: build `prefix + prompt[:budget] + "_ts_idx" + ext` with
`budget = max - len(prefix) - len(suffix) - len(ext) - 1`, using Python slice
semantics for the prompt truncation. -/
def truncate_fit (pre prompt ext : String) (ts idx : ℤ) (max : ℤ) : String :=
  let post := "_" ++ toString ts ++ "_" ++ toString idx
  let prompt_budget : ℤ :=
    max - (pre.length : ℤ) - (post.length : ℤ) - ((ext.length : ℤ) + 1)
  pre ++ pySliceTo prompt prompt_budget ++ post ++ ext

/-- Convert a run of decimal digit characters to the natural number they
denote, as Python `int` does on a digit string. -/
def digitsToNat (l : List Char) : ℕ :=
  l.foldl (fun n c => 10 * n + (c.toNat - 48)) 0

/-- Split a character list at the first closing parenthesis: the characters
before it and the characters after it, or none when no closing parenthesis
occurs. This is the semantics of the lazy group followed by a literal `)` in
the keyframe pattern. -/
def splitAtRParen : List Char → Option (List Char × List Char)
  | [] => none
  | c :: cs =>
    if c = ')' then some ([], cs)
    else
      match splitAtRParen cs with
      | some (p, r) => some (c :: p, r)
      | none => none

/-- Consume one expected literal character from the head of the list. -/
def expectChar (c : Char) : List Char → Option (List Char)
  | [] => none
  | d :: ds => if d = c then some ds else none

/-- Try to match the keyframe segment pattern — one or more digits, a colon,
optional whitespace, an opening parenthesis, a lazily matched parameter text,
a closing parenthesis — at the head of the character list. On success return
the frame number, the parameter text, and the characters after the match. -/
def matchSegAt (l : List Char) : Option (ℕ × String × List Char) :=
  if (l.takeWhile Char.isDigit).isEmpty then none
  else
    (expectChar ':' (l.dropWhile Char.isDigit)).bind (fun r2 =>
      (expectChar '(' (r2.dropWhile Char.isWhitespace)).bind (fun r4 =>
        (splitAtRParen r4).bind (fun pr =>
          some (digitsToNat (l.takeWhile Char.isDigit), ⟨pr.1⟩, pr.2))))

/-- Fuel-indexed scanning pass of the keyframe pattern over the character
list: try to match at the current position, emit the match and resume after
it, or advance one character on failure. One unit of fuel is spent per step,
and each step consumes at least one character, so fuel equal to the list
length never runs out early. -/
def findMatchesAux : ℕ → List Char → List (ℕ × String)
  | 0, _ => []
  | _ + 1, [] => []
  | fuel + 1, c :: cs =>
    match matchSegAt (c :: cs) with
    | some (f, p, rest) => (f, p) :: findMatchesAux fuel rest
    | none => findMatchesAux fuel cs

/-- All non-overlapping matches of the keyframe segment pattern, leftmost
first, as `re.finditer` yields them. -/
def findMatches (l : List Char) : List (ℕ × String) :=
  findMatchesAux l.length l

/-- Python dict assignment `d[k] = v` on an insertion-ordered association
list: replace the value in place when the key is present, append otherwise. -/
def dictInsert {β : Type} (m : List (ℕ × β)) (k : ℕ) (v : β) : List (ℕ × β) :=
  if m.any (fun kv => kv.1 == k) then
    m.map (fun kv => if kv.1 == k then (k, v) else kv)
  else m ++ [(k, v)]

/-- `key_frame_parse`: find every segment of the form `frame:(param)` in the
string, record each parameter — transformed by the prompt parser; the
absent-parser case of the source is `promptParser = id` — under its frame
index, and raise the format error when a non-empty string yields no match. -/
def key_frame_parse {α : Type} (string : String) (promptParser : String → α) :
    Except String (List (ℕ × α)) :=
  let frames := (findMatches string.data).foldl
    (fun m fp => dictInsert m fp.1 (promptParser fp.2)) []
  if frames.isEmpty ∧ string.length ≠ 0 then
    .error "Key Frame string not correctly formatted"
  else .ok frames

/-- The value of the last (rightmost) pair with the given key, if any. -/
def lastAssoc {β : Type} (f : ℕ) : List (ℕ × β) → Option β
  | [] => none
  | fp :: ms =>
    match lastAssoc f ms with
    | some v => some v
    | none => if fp.1 = f then some fp.2 else none

/-- Interpolation method names accepted by key_frame_inbetweens. -/
inductive InterpMethod where
  | Linear
  | Quadratic
  | Cubic
  deriving DecidableEq

/-- The method selection step of key_frame_inbetweens: degrade Cubic to
Quadratic when three or fewer keyframes are present, then Quadratic to
Linear when two or fewer are present, exactly as the two successive ifs of
the source. -/
def effective_interp_method (interp_method : InterpMethod) (n : ℕ) :
    InterpMethod :=
  let m1 := if interp_method = .Cubic ∧ n ≤ 3 then .Quadratic else interp_method
  if m1 = .Quadratic ∧ n ≤ 2 then .Linear else m1

/-- The valid (non-NaN) entries of a series, with their positions. -/
def validEntries (s : List (Option ℚ)) : List (ℕ × ℚ) :=
  s.enum.filterMap (fun jx => jx.2.map (fun v => (jx.1, v)))

/-- The position and value of the last valid entry strictly before
position i. -/
def prevValid (s : List (Option ℚ)) (i : ℕ) : Option (ℕ × ℚ) :=
  ((validEntries s).filter (fun jv => decide (jv.1 < i))).getLast?

/-- The position and value of the first valid entry strictly after
position i. -/
def nextValid (s : List (Option ℚ)) (i : ℕ) : Option (ℕ × ℚ) :=
  ((validEntries s).filter (fun jv => decide (i < jv.1))).head?

/-- pandas `Series.interpolate(method='linear', limit_direction='both')`:
valid entries are unchanged; a missing entry with valid neighbours on both
sides is linearly interpolated on position; missing entries before the first
valid entry are back-filled with it and those after the last valid entry are
forward-filled with it; an all-missing series stays missing. -/
def linear_interpolate (s : List (Option ℚ)) : List (Option ℚ) :=
  s.mapIdx (fun i x =>
    match x with
    | some v => some v
    | none =>
      match prevValid s i, nextValid s i with
      | some jv, some kv =>
        some (jv.2 + (kv.2 - jv.2) * ((i : ℚ) - (jv.1 : ℚ))
          / ((kv.1 : ℚ) - (jv.1 : ℚ)))
      | some jv, none => some jv.2
      | none, some kv => some kv.2
      | none, none => none)

/-- Python float-to-int conversion: truncation toward zero, the semantics of
pandas astype(int) on the interpolated values. -/
def truncToward0 (v : ℚ) : ℤ :=
  if 0 ≤ v then ⌊v⌋ else ⌈v⌉

/-- The astype(int) step applied when integer output is requested, as a map
on the rational series values. -/
def pyInt (integer : Bool) (v : ℚ) : ℚ :=
  if integer then ((truncToward0 v : ℤ) : ℚ) else v

/-- The value at the series' first valid index. -/
def firstValid (s : List (Option ℚ)) : Option ℚ :=
  (s.filterMap id).head?

/-- The value at the series' last valid index. -/
def lastValid (s : List (Option ℚ)) : Option ℚ :=
  (s.filterMap id).getLast?

/-- `key_frame_inbetweens`: build a series of max_frames missing entries,
write each keyframe value at its index, select the effective interpolation
method, clamp position 0 to the value at the first valid index and position
max_frames-1 to the value at the last valid index, interpolate, and truncate
to integers when requested.

The pandas interpolate call is an external library collaborator and is the
parameter `interp`; `linear_interpolate` implements its documented 'linear'
method, while the quadratic and cubic spline methods are quantified
abstractly in the theorems. Keyframe indices are assumed to lie in
[0, max_frames): out-of-range labels, which pandas would append as fresh
rows, are outside the modelled domain. The empty-map case, where the source
raises from indexing the series with a None label, is modelled as `none`. -/
def key_frame_inbetweens
    (interp : InterpMethod → List (Option ℚ) → List (Option ℚ))
    (key_frames : List (ℕ × ℚ)) (max_frames : ℕ)
    (integer : Bool) (interp_method : InterpMethod) :
    Option (List (Option ℚ)) :=
  let s1 := key_frames.foldl (fun s iv => s.set iv.1 (some iv.2))
    (List.replicate max_frames (none : Option ℚ))
  let m := effective_interp_method interp_method key_frames.length
  match firstValid s1 with
  | none => none
  | some fv =>
    let sA := s1.set 0 (some fv)
    match lastValid sA with
    | none => none
    | some lv =>
      let sB := sA.set (max_frames - 1) (some lv)
      let sC := interp m sB
      some (if integer then sC.map (Option.map (pyInt true)) else sC)

/-- The interpolation engine restricted to the 'linear' method, the only one
the concrete claims exercise: every method this engine is asked for resolves
to the linear procedure. -/
def linear_engine : InterpMethod → List (Option ℚ) → List (Option ℚ) :=
  fun _ s => linear_interpolate s

/-- Polynomial degree order of the interpolation methods, for stating that
degradation never upgrades. -/
def methodOrder : InterpMethod → ℕ
  | .Linear => 1
  | .Quadratic => 2
  | .Cubic => 3

/-- Python float() on the plain decimal literals used in keyframe strings:
integer part, optional dot and fractional part. -/
def parseDecimal (s : String) : ℚ :=
  let ip := s.data.takeWhile (fun c => c ≠ '.')
  match s.data.dropWhile (fun c => c ≠ '.') with
  | [] => (digitsToNat ip : ℚ)
  | _ :: frac =>
    (digitsToNat ip : ℚ) + (digitsToNat frac : ℚ) / (10 ^ frac.length : ℚ)

/-- Decidable equality of Except values with decidable components. -/
instance exceptDecEq {ε α : Type} [DecidableEq ε] [DecidableEq α] :
    DecidableEq (Except ε α)
  | .error e1, .error e2 =>
    if h : e1 = e2 then .isTrue (by rw [h])
    else .isFalse (by intro hc; cases hc; exact h rfl)
  | .error _, .ok _ => .isFalse (by intro hc; cases hc)
  | .ok _, .error _ => .isFalse (by intro hc; cases hc)
  | .ok a, .ok b =>
    if h : a = b then .isTrue (by rw [h])
    else .isFalse (by intro hc; cases hc; exact h rfl)

/-- Executable check that a list of rationals is strictly increasing. -/
def strictlyIncreasingB : List ℚ → Bool
  | a :: b :: t => (a < b) && strictlyIncreasingB (b :: t)
  | _ => true

/-- Artifact type tags of the generation protocol: image, mask, or any of
the other artifact types, which the response loop treats uniformly. -/
inductive ArtifactType where
  | ARTIFACT_IMAGE
  | ARTIFACT_MASK
  | ARTIFACT_OTHER
  deriving DecidableEq

/-- A response artifact: a type tag and a binary payload. -/
structure Artifact where
  type : ArtifactType
  binary : List ℕ
  deriving DecidableEq

/-- One message of the streaming Generate response. -/
structure Response where
  artifacts : List Artifact
  deriving DecidableEq

/-- The error message raised on a second mask artifact, kept verbatim from
the source. -/
def maskErrMsg : String :=
  "multiple masks returned in response, cliend implementaion currently " ++
    "assumes no more than one mask returned"

/-- The per-artifact step of image_xform's response loop: decode and append
image artifacts, decode at most one mask artifact into the mask slot, raise
on a second mask, and skip artifacts of any other type. -/
def image_xform_step {α : Type} (decode : List ℕ → α)
    (acc : List α × Option α) (artifact : Artifact) :
    Except String (List α × Option α) :=
  if artifact.type = .ARTIFACT_IMAGE ∨ artifact.type = .ARTIFACT_MASK then
    let im := decode artifact.binary
    if artifact.type = .ARTIFACT_IMAGE then
      .ok (acc.1 ++ [im], acc.2)
    else
      match acc.2 with
      | some _ => .error maskErrMsg
      | none => .ok (acc.1, some im)
  else
    .ok acc

/-- `image_xform`, response-consumption side: starting from an empty image
list and an empty mask slot, fold the loop body over every artifact of every
response message in arrival order. The request construction and the blocking
stub.Generate call are external I/O: the stream is modelled as the list of
response messages it yields and cv2.imdecode as the parameter decode. -/
def image_xform {α : Type} (decode : List ℕ → α) (resps : List Response) :
    Except String (List α × Option α) :=
  resps.foldlM
    (fun acc resp => resp.artifacts.foldlM (image_xform_step decode) acc)
    ([], none)

/-- All artifacts of a response stream, in arrival order. -/
def streamArtifacts (resps : List Response) : List Artifact :=
  (resps.map Response.artifacts).flatten

/-- The fields of a 2D warp transform operation. -/
structure TransformWarp2d where
  border_mode : BorderMode
  rotate : ℚ
  scale : ℚ
  translate_x : ℚ
  translate_y : ℚ
  deriving DecidableEq

/-- The fields of a 3D warp transform operation. -/
structure TransformWarp3d where
  border_mode : BorderMode
  translate_x : ℚ
  translate_y : ℚ
  translate_z : ℚ
  rotate_x : ℚ
  rotate_y : ℚ
  rotate_z : ℚ
  near_plane : ℚ
  far_plane : ℚ
  fov : ℚ
  deriving DecidableEq

/-- A transform operation: the 2D-warp or the 3D-warp variant. -/
inductive TransformOperation where
  | warp2d (w : TransformWarp2d)
  | warp3d (w : TransformWarp3d)
  deriving DecidableEq

/-- `warp2d_op`: resolve the border mode through the 2D lookup and build the
2D-warp variant; the lookup error propagates, and there is no numeric
validation. -/
def warp2d_op (dx dy rotate scale : ℚ) (border : String) :
    Except String TransformOperation :=
  (border_mode_from_str_2d border).map (fun bm =>
    .warp2d ⟨bm, rotate, scale, dx, dy⟩)

/-- `warp3d_op`: validate near < far and then fov > 0, raising a ValueError
citing the offending values, then resolve the border mode through the 3D
lookup and assign all ten fields of the 3D-warp variant. -/
def warp3d_op (dx dy dz rx ry rz near far fov : ℚ) (border : String) :
    Except String TransformOperation :=
  if ¬(near < far) then
    .error ("Invalid camera volume: must satisfy near < far, "
      ++ "got near=" ++ toString near ++ ", far=" ++ toString far)
  else if ¬(fov > 0) then
    .error ("Invalid camera volume: fov must be greater than 0, "
      ++ "got fov=" ++ toString fov)
  else
    (border_mode_from_str_3d border).map (fun bm =>
      .warp3d ⟨bm, dx, dy, dz, rx, ry, rz, near, far, fov⟩)

/-- Lookup in an association list with pairwise distinct keys returns the
value of any member pair. -/
theorem lookup_eq_of_mem {β : Type} {k : String} {v : β} :
    ∀ (l : List (String × β)), (l.map Prod.fst).Nodup → (k, v) ∈ l →
      l.lookup k = some v := by
  intro l
  induction l with
  | nil => intro _ h; cases h
  | cons hd tl ih =>
    obtain ⟨k1, v1⟩ := hd
    intro hnd hmem
    have hnd' : k1 ∉ tl.map Prod.fst ∧ (tl.map Prod.fst).Nodup :=
      List.nodup_cons.mp (by simpa using hnd)
    rcases List.mem_cons.mp hmem with heq | htl
    · cases heq
      simp [List.lookup]
    · have hk : (k == k1) = false :=
        beq_eq_false_iff_ne.mpr
          (fun hkeq => hnd'.1 (hkeq ▸ List.mem_map.mpr ⟨(k, v), htl, rfl⟩))
      have hrec := ih hnd'.2 htl
      simp [List.lookup, hk, hrec]

/-- C8: for each enum lookup domain (sampler, guidance preset, color-match
space, 2D border mode, 3D border mode), every key of the fixed table maps to
its fixed enum value for any input string whose lowercased, trimmed form equals
that key, and every input whose lowercased, trimmed form is absent from the
relevant table yields an invalid-configuration error naming the offending
string. -/
theorem enum_lookup_tables_spec :
    (∀ s k v, (k, v) ∈ SAMPLERS → pyStrip (pyLower s) = k →
      get_sampler_from_str s = .ok v) ∧
    (∀ s, SAMPLERS.lookup (pyStrip (pyLower s)) = none →
      get_sampler_from_str s = .error ("invalid sampler: " ++ s)) ∧
    (∀ s k v, (k, v) ∈ GUIDANCE_PRESETS → pyStrip (pyLower s) = k →
      guidance_from_string s = .ok v) ∧
    (∀ s, GUIDANCE_PRESETS.lookup (pyStrip (pyLower s)) = none →
      guidance_from_string s = .error ("invalid guidance preset: " ++ s)) ∧
    (∀ s k v, (k, v) ∈ COLOR_SPACES → pyStrip (pyLower s) = k →
      color_match_from_string s = .ok v) ∧
    (∀ s, COLOR_SPACES.lookup (pyStrip (pyLower s)) = none →
      color_match_from_string s = .error ("invalid color space: " ++ s)) ∧
    (∀ s k v, (k, v) ∈ BORDER_MODES_2D → pyStrip (pyLower s) = k →
      border_mode_from_str_2d s = .ok v) ∧
    (∀ s, BORDER_MODES_2D.lookup (pyStrip (pyLower s)) = none →
      border_mode_from_str_2d s = .error ("invalid 2d border mode " ++ s)) ∧
    (∀ s k v, (k, v) ∈ BORDER_MODES_3D → pyStrip (pyLower s) = k →
      border_mode_from_str_3d s = .ok v) ∧
    (∀ s, BORDER_MODES_3D.lookup (pyStrip (pyLower s)) = none →
      border_mode_from_str_3d s = .error ("invalid 3d border mode " ++ s)) := by
  refine ⟨?_, ?_, ?_, ?_, ?_, ?_, ?_, ?_, ?_, ?_⟩
  · intro s k v hmem heq
    have hl := lookup_eq_of_mem SAMPLERS (by decide) hmem
    simp [get_sampler_from_str, heq, hl]
  · intro s h
    simp [get_sampler_from_str, h]
  · intro s k v hmem heq
    have hl := lookup_eq_of_mem GUIDANCE_PRESETS (by decide) hmem
    simp [guidance_from_string, heq, hl]
  · intro s h
    simp [guidance_from_string, h]
  · intro s k v hmem heq
    have hl := lookup_eq_of_mem COLOR_SPACES (by decide) hmem
    simp [color_match_from_string, heq, hl]
  · intro s h
    simp [color_match_from_string, h]
  · intro s k v hmem heq
    have hl := lookup_eq_of_mem BORDER_MODES_2D (by decide) hmem
    simp [border_mode_from_str_2d, heq, hl]
  · intro s h
    simp [border_mode_from_str_2d, h]
  · intro s k v hmem heq
    have hl := lookup_eq_of_mem BORDER_MODES_3D (by decide) hmem
    simp [border_mode_from_str_3d, heq, hl]
  · intro s h
    simp [border_mode_from_str_3d, h]

/-- Concrete instances of the enum lookup contract: a cased, padded key from
each table resolves to its value, and an unknown string yields the error
naming it; "wrap" is valid for 2D but rejected by the 3D lookup. -/
theorem enum_lookup_tables_spec_witness :
    get_sampler_from_str " DDIM " = .ok .SAMPLER_DDIM ∧
    get_sampler_from_str "foo" = .error "invalid sampler: foo" ∧
    guidance_from_string "Simple" = .ok .GUIDANCE_PRESET_SIMPLE ∧
    guidance_from_string "foo" = .error "invalid guidance preset: foo" ∧
    color_match_from_string "LAB" = .ok .COLOR_MATCH_LAB ∧
    color_match_from_string "foo" = .error "invalid color space: foo" ∧
    border_mode_from_str_2d "Wrap" = .ok .BORDER_WRAP ∧
    border_mode_from_str_2d "foo" = .error "invalid 2d border mode foo" ∧
    border_mode_from_str_3d " replicate" = .ok .BORDER_REPLICATE ∧
    border_mode_from_str_3d "wrap" = .error "invalid 3d border mode wrap" :=
  ⟨enum_lookup_tables_spec.1 " DDIM " "ddim" _ (by decide) (by decide),
   enum_lookup_tables_spec.2.1 "foo" (by decide),
   enum_lookup_tables_spec.2.2.1 "Simple" "simple" _ (by decide) (by decide),
   enum_lookup_tables_spec.2.2.2.1 "foo" (by decide),
   enum_lookup_tables_spec.2.2.2.2.1 "LAB" "lab" _ (by decide) (by decide),
   enum_lookup_tables_spec.2.2.2.2.2.1 "foo" (by decide),
   enum_lookup_tables_spec.2.2.2.2.2.2.1 "Wrap" "wrap" _ (by decide) (by decide),
   enum_lookup_tables_spec.2.2.2.2.2.2.2.1 "foo" (by decide),
   enum_lookup_tables_spec.2.2.2.2.2.2.2.2.1 " replicate" "replicate" _
     (by decide) (by decide),
   enum_lookup_tables_spec.2.2.2.2.2.2.2.2.2 "wrap" (by decide)⟩

/-- C1: at prefix "a_", prompt "hello", extension ".png", ts 1, idx 2, max 9
the fixed components alone exceed max (prompt budget -2), yet the function
keeps the first three prompt characters "hel" — Python's negative slice drops
characters from the end of the prompt instead of omitting the prompt, contrary
to the claim and to the function's own docstring. -/
theorem truncate_fit_negative_budget_keeps_prompt :
    truncate_fit "a_" "hello" ".png" 1 2 9 = "a_hel_1_2.png" ∧
    truncate_fit "a_" "hello" ".png" 1 2 9 ≠ "a_" ++ "_1_2" ++ ".png" := by
  decide

/-- A successful split consumes at least the closing parenthesis. -/
theorem splitAtRParen_length :
    ∀ {l p r : List Char}, splitAtRParen l = some (p, r) → r.length < l.length := by
  intro l
  induction l with
  | nil => intro p r h; simp [splitAtRParen] at h
  | cons c cs ih =>
    intro p r h
    unfold splitAtRParen at h
    split at h
    · cases h
      simp
    · split at h
      · cases h
        have := ih (by assumption)
        simpa using Nat.lt_succ_of_lt this
      · cases h

/-- Consuming an expected character shortens the list by one. -/
theorem expectChar_length {c : Char} :
    ∀ {l r : List Char}, expectChar c l = some r → r.length < l.length := by
  intro l r h
  cases l with
  | nil => simp [expectChar] at h
  | cons d ds =>
    simp only [expectChar] at h
    split at h
    · cases h
      simp
    · cases h

/-- A successful segment match consumes at least one character. -/
theorem matchSegAt_rest_length {l : List Char} {f : ℕ} {p : String}
    {r : List Char} (h : matchSegAt l = some (f, p, r)) : r.length < l.length := by
  unfold matchSegAt at h
  by_cases hd : (l.takeWhile Char.isDigit).isEmpty
  · rw [if_pos hd] at h; cases h
  · rw [if_neg hd] at h
    rcases h2 : expectChar ':' (l.dropWhile Char.isDigit) with _ | r2 <;>
      rw [h2] at h
    · cases h
    · rw [Option.some_bind] at h
      rcases h4 : expectChar '(' (r2.dropWhile Char.isWhitespace) with _ | r4 <;>
        rw [h4] at h
      · cases h
      · rw [Option.some_bind] at h
        rcases hs : splitAtRParen r4 with _ | ⟨par, rest⟩ <;> rw [hs] at h
        · cases h
        · rw [Option.some_bind] at h
          have hr : r = rest := by cases h; rfl
          subst hr
          have e1 : r2.length < l.length :=
            Nat.lt_of_lt_of_le (expectChar_length h2)
              (List.dropWhile_suffix _).length_le
          have e2 : r4.length < r2.length :=
            Nat.lt_of_lt_of_le (expectChar_length h4)
              (List.dropWhile_suffix _).length_le
          exact Nat.lt_trans (Nat.lt_trans (splitAtRParen_length hs) e2) e1

/-- A value found by lastAssoc is the value of a pair of the list. -/
theorem lastAssoc_mem {β : Type} {f : ℕ} {v : β} :
    ∀ {ms : List (ℕ × β)}, lastAssoc f ms = some v → (f, v) ∈ ms := by
  intro ms
  induction ms with
  | nil => intro h; simp [lastAssoc] at h
  | cons fp tl ih =>
    obtain ⟨k1, v1⟩ := fp
    intro h
    unfold lastAssoc at h
    split at h
    · cases h
      exact List.mem_cons_of_mem _ (ih (by assumption))
    · split at h
      · cases h
        rename_i hk1
        cases hk1
        exact List.mem_cons_self _ _
      · cases h

/-- Any key of the list is found by lastAssoc. -/
theorem lastAssoc_isSome_of_mem {β : Type} {f : ℕ} {par : β} :
    ∀ {ms : List (ℕ × β)}, (f, par) ∈ ms → (lastAssoc f ms).isSome := by
  intro ms
  induction ms with
  | nil => intro h; cases h
  | cons fp tl ih =>
    intro h
    unfold lastAssoc
    rcases List.mem_cons.mp h with heq | htl
    · cases hla : lastAssoc f tl
      · rw [← heq]
        simp
      · simp
    · have := ih htl
      cases hla : lastAssoc f tl
      · rw [hla] at this
        simp at this
      · simp

/-- Lookup of a pair list at the key of its head. -/
theorem lookup_cons_eq {β : Type} (k : ℕ) (v : β) (tl : List (ℕ × β)) :
    ((k, v) :: tl).lookup k = some v := by
  simp [List.lookup]

/-- Lookup of a pair list at a key other than that of its head. -/
theorem lookup_cons_ne {β : Type} {f k : ℕ} (h : f ≠ k) (v : β)
    (tl : List (ℕ × β)) : ((k, v) :: tl).lookup f = tl.lookup f := by
  have hb : (f == k) = false := beq_eq_false_iff_ne.mpr h
  simp [List.lookup, hb]

/-- Effect of Python dict assignment on lookup, key-present case: replacing
in place rewrites exactly the entries with the assigned key. -/
theorem lookup_map_replace {β : Type} (k : ℕ) (v : β) (f : ℕ) :
    ∀ (m : List (ℕ × β)),
      (m.map (fun kv => if kv.1 == k then (k, v) else kv)).lookup f
        = if f = k then (if m.any (fun kv => kv.1 == k) then some v else none)
          else m.lookup f := by
  intro m
  induction m with
  | nil => by_cases hfk : f = k <;> simp [hfk]
  | cons hd tl ih =>
    obtain ⟨k1, v1⟩ := hd
    rw [List.map_cons]
    by_cases h1 : k1 = k
    · have hb : (k1 == k) = true := beq_iff_eq.mpr h1
      have hhd : (if (k1, v1).1 == k then (k, v) else (k1, v1)) = (k, v) := by
        simp [hb]
      rw [hhd]
      have hany : ((k1, v1) :: tl).any (fun kv => kv.1 == k) = true := by
        simp [List.any_cons, hb]
      rw [hany]
      by_cases hfk : f = k
      · subst hfk
        rw [if_pos rfl, if_pos rfl, lookup_cons_eq]
      · rw [if_neg hfk, lookup_cons_ne hfk, lookup_cons_ne (h1 ▸ hfk), ih,
          if_neg hfk]
    · have hb : (k1 == k) = false := beq_eq_false_iff_ne.mpr h1
      have hhd : (if (k1, v1).1 == k then (k, v) else (k1, v1)) = (k1, v1) := by
        simp [hb]
      rw [hhd]
      have hany : ((k1, v1) :: tl).any (fun kv => kv.1 == k)
          = tl.any (fun kv => kv.1 == k) := by
        simp [List.any_cons, hb]
      rw [hany]
      by_cases hf1 : f = k1
      · subst hf1
        rw [lookup_cons_eq, if_neg h1, lookup_cons_eq]
      · rw [lookup_cons_ne hf1, lookup_cons_ne hf1, ih]

/-- Effect of Python dict assignment on lookup: the assigned key now maps to
the assigned value, every other key is untouched. -/
theorem lookup_dictInsert {β : Type} (m : List (ℕ × β)) (k : ℕ) (v : β)
    (f : ℕ) :
    (dictInsert m k v).lookup f = if f = k then some v else m.lookup f := by
  unfold dictInsert
  by_cases hany : m.any (fun kv => kv.1 == k)
  · rw [if_pos hany, lookup_map_replace]
    by_cases hfk : f = k <;> simp [hfk, hany]
  · rw [if_neg hany]
    have hnok : ∀ w : β, (k, w) ∉ m := by
      intro w hw
      exact hany (List.any_eq_true.mpr ⟨(k, w), hw, by simp⟩)
    induction m with
    | nil =>
      by_cases hfk : f = k
      · subst hfk
        rw [List.nil_append, lookup_cons_eq, if_pos rfl]
      · rw [List.nil_append, lookup_cons_ne hfk, if_neg hfk]
    | cons hd tl ih =>
      obtain ⟨k1, v1⟩ := hd
      have h1 : k1 ≠ k := fun hc => hnok v1 (by rw [← hc]; exact List.mem_cons_self _ _)
      have htl : ∀ w : β, (k, w) ∉ tl := fun w hw => hnok w (List.mem_cons_of_mem _ hw)
      have hanytl : ¬tl.any (fun kv => kv.1 == k) = true := by
        intro hc
        rcases List.any_eq_true.mp hc with ⟨kv, hkv, hbeq⟩
        exact htl kv.2 (by
          have : kv.1 = k := by simpa using hbeq
          rw [← this]
          simpa using hkv)
      rw [List.cons_append]
      by_cases hf1 : f = k1
      · subst hf1
        rw [lookup_cons_eq, if_neg h1, lookup_cons_eq]
      · rw [lookup_cons_ne hf1, lookup_cons_ne hf1, ih hanytl htl]

/-- dictInsert never returns the empty list. -/
theorem dictInsert_ne_nil {β : Type} (m : List (ℕ × β)) (k : ℕ) (v : β) :
    dictInsert m k v ≠ [] := by
  unfold dictInsert
  split
  · cases m with
    | nil => simp_all
    | cons hd tl => simp
  · simp

/-- Folding dict assignments over a non-empty accumulator stays non-empty. -/
theorem foldl_dictInsert_ne_nil {β γ : Type} (g : γ → β) :
    ∀ (ms : List (ℕ × γ)) (init : List (ℕ × β)), init ≠ [] →
      ms.foldl (fun m fp => dictInsert m fp.1 (g fp.2)) init ≠ [] := by
  intro ms
  induction ms with
  | nil => intro init h; simpa using h
  | cons fp tl ih =>
    intro init _
    rw [List.foldl_cons]
    exact ih _ (dictInsert_ne_nil _ _ _)

/-- Lookup after folding dict assignments: the rightmost assignment to a key
wins, and keys never assigned fall through to the initial accumulator. -/
theorem lookup_foldl_dictInsert {β γ : Type} (g : γ → β) :
    ∀ (ms : List (ℕ × γ)) (init : List (ℕ × β)) (f : ℕ),
      (ms.foldl (fun m fp => dictInsert m fp.1 (g fp.2)) init).lookup f
        = match lastAssoc f ms with
          | some v => some (g v)
          | none => init.lookup f := by
  intro ms
  induction ms with
  | nil => intro init f; simp [lastAssoc]
  | cons fp tl ih =>
    intro init f
    rw [List.foldl_cons, ih]
    cases hla : lastAssoc f tl
    · simp only [lastAssoc, hla, lookup_dictInsert]
      by_cases hf : fp.1 = f
      · rw [if_pos hf, if_pos hf.symm]
      · rw [if_neg hf, if_neg (fun hc => hf hc.symm)]
    · simp [lastAssoc, hla]

/-- A string has nonzero length exactly when it is not the empty string. -/
theorem string_length_ne_zero_iff {s : String} : s.length ≠ 0 ↔ s ≠ "" := by
  constructor
  · intro h hc
    subst hc
    exact h rfl
  · intro h hc
    apply h
    cases s with
    | mk data =>
      cases data with
      | nil => rfl
      | cons c cs => simp [String.length] at hc

/-- The folded dict of the match list is empty exactly when no segment
matched. -/
theorem parse_frames_isEmpty_iff {α : Type} (p : String → α)
    (ms : List (ℕ × String)) :
    ((ms.foldl (fun m fp => dictInsert m fp.1 (p fp.2)) []).isEmpty = true)
      ↔ ms = [] := by
  cases ms with
  | nil => simp
  | cons fp tl =>
    rw [List.foldl_cons]
    simp only [List.isEmpty_iff]
    constructor
    · intro hemp
      exact absurd hemp
        (foldl_dictInsert_ne_nil p tl _ (dictInsert_ne_nil _ _ _))
    · intro hc
      cases hc

/-- C7: key_frame_parse raises the format error exactly when the string is
non-empty and the keyframe pattern finds no match in it; the empty string
yields the empty map without error; and whenever at least one segment
matches, the parse succeeds with a map in which every matched frame index is
bound to the prompt-parser image of the parameter of one of its matched
segments. -/
theorem key_frame_parse_format_error_iff {α : Type} (p : String → α)
    (s : String) :
    (key_frame_parse s p = .error "Key Frame string not correctly formatted" ↔
      s ≠ "" ∧ findMatches s.data = []) ∧
    key_frame_parse "" p = .ok [] ∧
    (findMatches s.data ≠ [] →
      ∃ m, key_frame_parse s p = .ok m ∧
        ∀ fr par, (fr, par) ∈ findMatches s.data →
          ∃ par2, (fr, par2) ∈ findMatches s.data ∧
            m.lookup fr = some (p par2)) := by
  refine ⟨?_, ?_, ?_⟩
  · simp only [key_frame_parse]
    split
    · rename_i hcond
      constructor
      · intro _
        exact ⟨string_length_ne_zero_iff.mp hcond.2,
          (parse_frames_isEmpty_iff p _).mp hcond.1⟩
      · intro _
        rfl
    · rename_i hcond
      constructor
      · intro herr
        cases herr
      · intro hc
        exact absurd ⟨(parse_frames_isEmpty_iff p _).mpr hc.2,
          string_length_ne_zero_iff.mpr hc.1⟩ hcond
  · rfl
  · intro hne
    refine ⟨(findMatches s.data).foldl
      (fun m fp => dictInsert m fp.1 (p fp.2)) [], ?_, ?_⟩
    · unfold key_frame_parse
      rw [if_neg]
      intro hcond
      exact hne ((parse_frames_isEmpty_iff p _).mp hcond.1)
    · intro fr par hmem
      have hsome := lastAssoc_isSome_of_mem hmem
      rcases hv : lastAssoc fr (findMatches s.data) with _ | v
      · rw [hv] at hsome
        simp at hsome
      · refine ⟨v, lastAssoc_mem hv, ?_⟩
        rw [lookup_foldl_dictInsert p _ [] fr, hv]

/-- Concrete instances of the parse error contract: a non-empty string with
no matching segment raises the format error, and a string with one matching
segment parses to a map binding that frame. -/
theorem key_frame_parse_format_error_iff_witness :
    key_frame_parse "abc" (fun x => x)
        = .error "Key Frame string not correctly formatted" ∧
    (∃ m, key_frame_parse "0:(a)" (fun x => x) = .ok m ∧
      ∃ par2, (0, par2) ∈ findMatches "0:(a)".data ∧
        m.lookup 0 = some par2) :=
  ⟨((key_frame_parse_format_error_iff (fun x => x) "abc").1).mpr
      ⟨by decide, by decide⟩,
   by
    rcases ((key_frame_parse_format_error_iff (fun x => x) "0:(a)").2.2
        (by decide)) with ⟨m, hm, hall⟩
    exact ⟨m, hm, hall 0 "a" (by decide)⟩⟩

/-- C10: when the same frame index occurs in several matched segments, the
returned map records that frame as the prompt-parser image of the parameter
of the last (rightmost) such segment, discarding the earlier ones. -/
theorem key_frame_parse_last_match_wins {α : Type} (p : String → α)
    (s : String) (f : ℕ) (par : String)
    (h : lastAssoc f (findMatches s.data) = some par) :
    ∃ m, key_frame_parse s p = .ok m ∧ m.lookup f = some (p par) := by
  have hne : findMatches s.data ≠ [] := by
    intro hc
    rw [hc] at h
    simp [lastAssoc] at h
  refine ⟨(findMatches s.data).foldl
    (fun m fp => dictInsert m fp.1 (p fp.2)) [], ?_, ?_⟩
  · simp only [key_frame_parse]
    rw [if_neg]
    intro hcond
    exact hne ((parse_frames_isEmpty_iff p _).mp hcond.1)
  · rw [lookup_foldl_dictInsert p _ [] f, h]

/-- Concrete instance of last-match-wins: in "0:(a) 0:(b)" the frame 0 is
bound to "b", the parameter of the rightmost segment for frame 0. -/
theorem key_frame_parse_last_match_wins_witness :
    ∃ m, key_frame_parse "0:(a) 0:(b)" (fun x => x) = .ok m ∧
      m.lookup 0 = some "b" :=
  key_frame_parse_last_match_wins (fun x => x) "0:(a) 0:(b)" 0 "b" (by decide)

/-- C3: the effective interpolation method degrades Cubic to Quadratic when
three or fewer keyframes are present and Quadratic to Linear when two or
fewer are present, never upgrades, and in particular with exactly two
keyframes a Cubic request produces exactly the output of a Linear request on
the same map. -/
theorem key_frame_inbetweens_method_degradation :
    (∀ m n, methodOrder (effective_interp_method m n) ≤ methodOrder m) ∧
    (∀ n, n ≤ 2 → effective_interp_method .Cubic n = .Linear) ∧
    (∀ n, 2 < n → n ≤ 3 → effective_interp_method .Cubic n = .Quadratic) ∧
    (∀ n, 3 < n → effective_interp_method .Cubic n = .Cubic) ∧
    (∀ n, n ≤ 2 → effective_interp_method .Quadratic n = .Linear) ∧
    (∀ n, 2 < n → effective_interp_method .Quadratic n = .Quadratic) ∧
    (∀ n, effective_interp_method .Linear n = .Linear) ∧
    (∀ interp key_frames max_frames integer, key_frames.length = 2 →
      key_frame_inbetweens interp key_frames max_frames integer .Cubic
        = key_frame_inbetweens interp key_frames max_frames integer .Linear) := by
  refine ⟨?_, ?_, ?_, ?_, ?_, ?_, ?_, ?_⟩
  · intro m n
    cases m
    · simp [effective_interp_method, methodOrder]
    · by_cases h2 : n ≤ 2 <;>
        simp [effective_interp_method, methodOrder, h2]
    · by_cases h2 : n ≤ 2 <;> by_cases h3 : n ≤ 3 <;>
        simp [effective_interp_method, methodOrder, h2, h3]
  · intro n h2
    have h3 : n ≤ 3 := by omega
    simp [effective_interp_method, h2, h3]
  · intro n h2 h3
    have h2n : ¬n ≤ 2 := by omega
    simp [effective_interp_method, h3, h2n]
  · intro n h3
    have h3n : ¬n ≤ 3 := by omega
    have h2n : ¬n ≤ 2 := by omega
    simp [effective_interp_method, h3n, h2n]
  · intro n h2
    simp [effective_interp_method, h2]
  · intro n h2
    have h2n : ¬n ≤ 2 := by omega
    simp [effective_interp_method, h2n]
  · intro n
    simp [effective_interp_method]
  · intro interp kf mf int h
    have he : effective_interp_method .Cubic kf.length
        = effective_interp_method .Linear kf.length := by
      rw [h]
      decide
    unfold key_frame_inbetweens
    rw [he]

/-- Concrete instance of the degradation contract: on a two-keyframe map a
Cubic request returns the Linear output, and the method selection maps Cubic
at two keyframes to Linear. -/
theorem key_frame_inbetweens_method_degradation_witness :
    key_frame_inbetweens linear_engine [(0, (1 : ℚ)), (10, 5)] 11 false .Cubic
      = key_frame_inbetweens linear_engine [(0, 1), (10, 5)] 11 false .Linear ∧
    effective_interp_method .Cubic 2 = .Linear :=
  ⟨key_frame_inbetweens_method_degradation.2.2.2.2.2.2.2
      linear_engine [(0, 1), (10, 5)] 11 false (by decide),
   key_frame_inbetweens_method_degradation.2.1 2 (by decide)⟩

unseal Rat.mul Rat.add Rat.sub Rat.inv in
/-- C5: parsing "0:(1.0) 10:(5.0)" with the numeric prompt parser yields the
map binding frame 0 to 1.0 and frame 10 to 5.0, and expanding that map over
11 frames with Linear interpolation yields a fully defined strictly
increasing series of length 11 whose position 0 holds 1.0 and position 10
holds 5.0. -/
theorem key_frame_round_trip :
    key_frame_parse "0:(1.0) 10:(5.0)" parseDecimal = .ok [(0, 1), (10, 5)] ∧
    ∃ series,
      key_frame_inbetweens linear_engine [(0, 1), (10, 5)] 11 false .Linear
        = some series ∧
      series.length = 11 ∧
      series[0]? = some (some 1) ∧
      series[10]? = some (some 5) ∧
      (series.filterMap id).length = 11 ∧
      strictlyIncreasingB (series.filterMap id) = true := by
  refine ⟨by decide,
    ⟨[some 1, some (7/5), some (9/5), some (11/5), some (13/5), some 3,
      some (17/5), some (19/5), some (21/5), some (23/5), some 5],
     by decide, by decide, by decide, by decide, by decide, by decide⟩⟩

/-- Characterization of the response-loop fold from any accumulator: with at
most one mask among the artifacts and the slot, it returns the accumulated
images followed by all decoded image artifacts in order and the first mask
seen; otherwise it raises the fixed error. -/
theorem foldlM_image_xform_step {α : Type} (decode : List ℕ → α) :
    ∀ (arts : List Artifact) (acc : List α × Option α),
      arts.foldlM (image_xform_step decode) acc
        = if (arts.filter (fun a => a.type = ArtifactType.ARTIFACT_MASK)).length
              + (if acc.2.isSome then 1 else 0) ≤ 1 then
            .ok (acc.1 ++ (arts.filter (fun a => a.type = ArtifactType.ARTIFACT_IMAGE)).map
                  (fun a => decode a.binary),
                 match acc.2 with
                 | some m => some m
                 | none =>
                   ((arts.filter (fun a => a.type = ArtifactType.ARTIFACT_MASK)).head?).map
                     (fun a => decode a.binary))
          else .error maskErrMsg := by
  intro arts
  induction arts with
  | nil =>
    intro acc
    rcases acc with ⟨imgs, mk⟩
    cases mk <;> simp [List.foldlM, pure, Except.pure]
  | cons a arts ih =>
    intro acc
    rcases acc with ⟨imgs, mk⟩
    rw [List.foldlM_cons]
    rcases ht : a.type with _ | _ | _
    · -- IMAGE
      have hstep : image_xform_step decode (imgs, mk) a
          = .ok (imgs ++ [decode a.binary], mk) := by
        simp [image_xform_step, ht]
      rw [hstep]
      show List.foldlM _ (imgs ++ [decode a.binary], mk) arts = _
      rw [ih]
      have hfm : (a :: arts).filter (fun a => a.type = ArtifactType.ARTIFACT_MASK)
          = arts.filter (fun a => a.type = ArtifactType.ARTIFACT_MASK) := by
        simp [List.filter_cons, ht]
      have hfi : (a :: arts).filter (fun a => a.type = ArtifactType.ARTIFACT_IMAGE)
          = a :: arts.filter (fun a => a.type = ArtifactType.ARTIFACT_IMAGE) := by
        simp [List.filter_cons, ht]
      rw [hfm, hfi]
      dsimp only
      simp [List.append_assoc]
    · -- MASK
      rcases mk with _ | m
      · have hstep : image_xform_step decode (imgs, none) a
            = .ok (imgs, some (decode a.binary)) := by
          simp [image_xform_step, ht]
        rw [hstep]
        show List.foldlM _ (imgs, some (decode a.binary)) arts = _
        rw [ih]
        have hfm : (a :: arts).filter (fun a => a.type = ArtifactType.ARTIFACT_MASK)
            = a :: arts.filter (fun a => a.type = ArtifactType.ARTIFACT_MASK) := by
          simp [List.filter_cons, ht]
        have hfi : (a :: arts).filter (fun a => a.type = ArtifactType.ARTIFACT_IMAGE)
            = arts.filter (fun a => a.type = ArtifactType.ARTIFACT_IMAGE) := by
          simp [List.filter_cons, ht]
        rw [hfm, hfi]
        dsimp only
        simp
      · have hstep : image_xform_step decode (imgs, some m) a
            = .error maskErrMsg := by
          simp [image_xform_step, ht]
        rw [hstep]
        have hfm : (a :: arts).filter (fun a => a.type = ArtifactType.ARTIFACT_MASK)
            = a :: arts.filter (fun a => a.type = ArtifactType.ARTIFACT_MASK) := by
          simp [List.filter_cons, ht]
        rw [hfm]
        have : ¬((a :: arts.filter (fun a => a.type = ArtifactType.ARTIFACT_MASK)).length
            + (if (some m).isSome then 1 else 0) ≤ 1) := by
          simp
        rw [if_neg this]
        show Except.error maskErrMsg >>= _ = _
        rfl
    · -- OTHER
      have hstep : image_xform_step decode (imgs, mk) a = .ok (imgs, mk) := by
        simp [image_xform_step, ht]
      rw [hstep]
      show List.foldlM _ (imgs, mk) arts = _
      rw [ih]
      have hfm : (a :: arts).filter (fun a => a.type = ArtifactType.ARTIFACT_MASK)
          = arts.filter (fun a => a.type = ArtifactType.ARTIFACT_MASK) := by
        simp [List.filter_cons, ht]
      have hfi : (a :: arts).filter (fun a => a.type = ArtifactType.ARTIFACT_IMAGE)
          = arts.filter (fun a => a.type = ArtifactType.ARTIFACT_IMAGE) := by
        simp [List.filter_cons, ht]
      rw [hfm, hfi]

/-- The nested per-message fold equals a single fold over the flattened
artifact stream. -/
theorem foldlM_flatten_artifacts {α : Type} (decode : List ℕ → α) :
    ∀ (resps : List Response) (acc : List α × Option α),
      resps.foldlM
          (fun acc resp => resp.artifacts.foldlM (image_xform_step decode) acc)
          acc
        = ((resps.map Response.artifacts).flatten).foldlM
            (image_xform_step decode) acc := by
  intro resps
  induction resps with
  | nil => intro acc; rfl
  | cons r rest ih =>
    intro acc
    rw [List.foldlM_cons, List.map_cons, List.flatten_cons, List.foldlM_append]
    cases hstep : r.artifacts.foldlM (image_xform_step decode) acc with
    | ok acc1 =>
      show (Except.ok acc1 >>= _) = (Except.ok acc1 >>= _)
      simp only [bind, Except.bind]
      exact ih acc1
    | error e =>
      rfl

/-- image_xform consumes exactly the flattened artifact stream in order. -/
theorem image_xform_eq_stream_foldlM {α : Type} (decode : List ℕ → α)
    (resps : List Response) :
    image_xform decode resps
      = (streamArtifacts resps).foldlM (image_xform_step decode)
          ([], none) :=
  foldlM_flatten_artifacts decode resps ([], none)

/-- Filtering by a weaker predicate first does not change a filter. -/
theorem filter_filter_of_imp {p q : Artifact → Bool}
    (h : ∀ a, q a = true → p a = true) (l : List Artifact) :
    (l.filter p).filter q = l.filter q := by
  induction l with
  | nil => rfl
  | cons a t ih =>
    by_cases hq : q a = true
    · have hp : p a = true := h a hq
      simp [List.filter_cons, hp, hq, ih]
    · by_cases hp : p a = true <;>
        simp [List.filter_cons, hp, hq, ih]

/-- C2: whenever the response stream carries at most one mask-typed artifact,
image_xform returns every image-typed artifact decoded in arrival order
together with the decoded mask (or none); whenever a second mask-typed
artifact occurs anywhere in the stream, also in a different message than the
first, image_xform raises instead of returning. -/
theorem image_xform_images_in_order_single_mask {α : Type}
    (decode : List ℕ → α) (resps : List Response) :
    (((streamArtifacts resps).filter
        (fun a => a.type = ArtifactType.ARTIFACT_MASK)).length ≤ 1 →
      image_xform decode resps
        = .ok (((streamArtifacts resps).filter
              (fun a => a.type = ArtifactType.ARTIFACT_IMAGE)).map
                (fun a => decode a.binary),
            (((streamArtifacts resps).filter
              (fun a => a.type = ArtifactType.ARTIFACT_MASK)).head?).map
                (fun a => decode a.binary))) ∧
    (2 ≤ ((streamArtifacts resps).filter
        (fun a => a.type = ArtifactType.ARTIFACT_MASK)).length →
      image_xform decode resps = .error maskErrMsg) := by
  rw [image_xform_eq_stream_foldlM, foldlM_image_xform_step]
  constructor
  · intro h
    rw [if_pos (by simp; omega)]
    rfl
  · intro h
    rw [if_neg (by simp; omega)]

/-- Concrete instance of the stream contract: the two-message stream of the
spec returns its two images in order and its one mask, and a stream whose
two messages each carry a mask raises. -/
theorem image_xform_images_in_order_single_mask_witness :
    image_xform (fun b => b)
        [⟨[⟨.ARTIFACT_IMAGE, [1]⟩]⟩,
         ⟨[⟨.ARTIFACT_IMAGE, [2]⟩, ⟨.ARTIFACT_MASK, [3]⟩]⟩]
      = .ok ([[1], [2]], some [3]) ∧
    image_xform (fun b => b)
        [⟨[⟨.ARTIFACT_MASK, [1]⟩]⟩, ⟨[⟨.ARTIFACT_MASK, [2]⟩]⟩]
      = .error maskErrMsg := by
  constructor
  · have h := (image_xform_images_in_order_single_mask (fun b => b)
      [⟨[⟨.ARTIFACT_IMAGE, [1]⟩]⟩,
       ⟨[⟨.ARTIFACT_IMAGE, [2]⟩, ⟨.ARTIFACT_MASK, [3]⟩]⟩]).1 (by decide)
    rw [h]
    rfl
  · exact (image_xform_images_in_order_single_mask (fun b => b)
      [⟨[⟨.ARTIFACT_MASK, [1]⟩]⟩, ⟨[⟨.ARTIFACT_MASK, [2]⟩]⟩]).2 (by decide)

/-- C9: artifacts whose type is neither image nor mask are skipped silently:
deleting them from every message of the stream leaves the result of
image_xform unchanged, so they appear in no output, count toward no mask
check, and cause no error. -/
theorem image_xform_skips_other_artifacts {α : Type}
    (decode : List ℕ → α) (resps : List Response) :
    image_xform decode resps
      = image_xform decode (resps.map (fun r =>
          ⟨r.artifacts.filter (fun a =>
            a.type = ArtifactType.ARTIFACT_IMAGE ∨
              a.type = ArtifactType.ARTIFACT_MASK)⟩)) := by
  rw [image_xform_eq_stream_foldlM, image_xform_eq_stream_foldlM,
    foldlM_image_xform_step, foldlM_image_xform_step]
  have hstream : streamArtifacts (resps.map (fun r =>
      (⟨r.artifacts.filter (fun a =>
        a.type = ArtifactType.ARTIFACT_IMAGE ∨
          a.type = ArtifactType.ARTIFACT_MASK)⟩ : Response)))
      = (streamArtifacts resps).filter (fun a =>
          a.type = ArtifactType.ARTIFACT_IMAGE ∨
            a.type = ArtifactType.ARTIFACT_MASK) := by
    unfold streamArtifacts
    rw [List.map_map, List.filter_flatten, List.map_map]
    rfl
  rw [hstream,
    filter_filter_of_imp (by intro a ha; simp at ha ⊢; right; exact ha),
    filter_filter_of_imp (by intro a ha; simp at ha ⊢; left; exact ha)]

/-- C6: warp3d_op raises an invalid-argument error citing the offending
values when near ≥ far, and, with a valid plane ordering, when fov ≤ 0,
before constructing any operation; otherwise, for any border name the 3D
lookup resolves, it returns the 3D-warp variant of TransformOperation with
all ten fields populated from the arguments. -/
theorem warp3d_op_spec (dx dy dz rx ry rz near far fov : ℚ)
    (border : String) :
    (¬(near < far) →
      warp3d_op dx dy dz rx ry rz near far fov border
        = .error ("Invalid camera volume: must satisfy near < far, "
            ++ "got near=" ++ toString near ++ ", far=" ++ toString far)) ∧
    (near < far → ¬(fov > 0) →
      warp3d_op dx dy dz rx ry rz near far fov border
        = .error ("Invalid camera volume: fov must be greater than 0, "
            ++ "got fov=" ++ toString fov)) ∧
    (near < far → fov > 0 →
      ∀ bm, border_mode_from_str_3d border = .ok bm →
        warp3d_op dx dy dz rx ry rz near far fov border
          = .ok (.warp3d ⟨bm, dx, dy, dz, rx, ry, rz, near, far, fov⟩)) := by
  refine ⟨?_, ?_, ?_⟩
  · intro h
    unfold warp3d_op
    rw [if_pos h]
  · intro h1 h2
    unfold warp3d_op
    rw [if_neg (not_not_intro h1), if_pos h2]
  · intro h1 h2 bm hbm
    unfold warp3d_op
    rw [if_neg (not_not_intro h1), if_neg (not_not_intro h2), hbm]
    rfl

/-- Concrete instances of the 3D warp contract: near = far raises, fov = 0
raises, and a valid camera volume with a known border name returns the fully
populated 3D-warp operation. -/
theorem warp3d_op_spec_witness :
    warp3d_op 0 0 0 0 0 0 5 5 60 "replicate"
      = .error ("Invalid camera volume: must satisfy near < far, "
          ++ "got near=" ++ toString (5 : ℚ) ++ ", far=" ++ toString (5 : ℚ)) ∧
    warp3d_op 0 0 0 0 0 0 1 100 0 "replicate"
      = .error ("Invalid camera volume: fov must be greater than 0, "
          ++ "got fov=" ++ toString (0 : ℚ)) ∧
    warp3d_op 1 2 3 4 5 6 1 100 45 "reflect"
      = .ok (.warp3d ⟨.BORDER_REFLECT, 1, 2, 3, 4, 5, 6, 1, 100, 45⟩) :=
  ⟨(warp3d_op_spec 0 0 0 0 0 0 5 5 60 "replicate").1 (by decide),
   (warp3d_op_spec 0 0 0 0 0 0 1 100 0 "replicate").2.1 (by decide) (by decide),
   (warp3d_op_spec 1 2 3 4 5 6 1 100 45 "reflect").2.2 (by decide) (by decide)
     .BORDER_REFLECT (by decide)⟩

/-- Writing keyframe values into a series preserves its length. -/
theorem length_foldl_set :
    ∀ (kf : List (ℕ × ℚ)) (s0 : List (Option ℚ)),
      (kf.foldl (fun s iv => s.set iv.1 (some iv.2)) s0).length = s0.length := by
  intro kf
  induction kf with
  | nil => intro s0; rfl
  | cons hd tl ih =>
    intro s0
    rw [List.foldl_cons, ih, List.length_set]

/-- Entries of the series after writing the keyframes: the last write to a
position wins, untouched in-range positions keep the initial entry. -/
theorem getElem?_foldl_set :
    ∀ (kf : List (ℕ × ℚ)) (s0 : List (Option ℚ)) (i : ℕ),
      (∀ kv ∈ kf, kv.1 < s0.length) →
      (kf.foldl (fun s iv => s.set iv.1 (some iv.2)) s0)[i]?
        = match lastAssoc i kf with
          | some v => some (some v)
          | none => s0[i]? := by
  intro kf
  induction kf with
  | nil => intro s0 i _; rfl
  | cons hd tl ih =>
    obtain ⟨k, v⟩ := hd
    intro s0 i hkeys
    rw [List.foldl_cons]
    have hkeys' : ∀ kv ∈ tl, kv.1 < (s0.set k (some v)).length := by
      intro kv hkv
      rw [List.length_set]
      exact hkeys kv (List.mem_cons_of_mem _ hkv)
    rw [ih (s0.set k (some v)) i hkeys']
    cases hla : lastAssoc i tl with
    | some w => simp [lastAssoc, hla]
    | none =>
      simp only [lastAssoc, hla]
      by_cases hk : k = i
      · subst hk
        have hlt : k < s0.length := hkeys (k, v) (List.mem_cons_self _ _)
        simp [List.getElem?_set_self hlt]
      · simp [List.getElem?_set_ne hk, hk]

/-- With pairwise distinct keys, a key determines its value. -/
theorem nodup_keys_value_unique {kf : List (ℕ × ℚ)} {i : ℕ} {v w : ℚ}
    (hnd : (kf.map Prod.fst).Nodup) (hv : (i, v) ∈ kf) (hw : (i, w) ∈ kf) :
    v = w := by
  induction kf with
  | nil => cases hv
  | cons hd tl ih =>
    have hnd' : hd.1 ∉ tl.map Prod.fst ∧ (tl.map Prod.fst).Nodup :=
      List.nodup_cons.mp (by simpa using hnd)
    rcases List.mem_cons.mp hv with hv1 | hv2 <;>
      rcases List.mem_cons.mp hw with hw1 | hw2
    · rw [← hv1] at hw1
      exact (Prod.mk.injEq .. ▸ hw1.symm).2
    · exact absurd (List.mem_map.mpr ⟨(i, w), hw2, by rw [← hv1]⟩) hnd'.1
    · exact absurd (List.mem_map.mpr ⟨(i, v), hv2, by rw [← hw1]⟩) hnd'.1
    · exact ih hnd'.2 hv2 hw2

/-- lastAssoc finds nothing when no pair carries the key. -/
theorem lastAssoc_eq_none_of_no_key {kf : List (ℕ × ℚ)} {i : ℕ}
    (h : ∀ kv ∈ kf, kv.1 ≠ i) : lastAssoc i kf = none := by
  induction kf with
  | nil => rfl
  | cons hd tl ih =>
    have htl := ih (fun kv hkv => h kv (List.mem_cons_of_mem _ hkv))
    simp [lastAssoc, htl, h hd (List.mem_cons_self _ _)]

/-- firstValid returns the value at a valid position below which every
position is missing. -/
theorem firstValid_eq :
    ∀ (s : List (Option ℚ)) (i : ℕ) (v : ℚ),
      s[i]? = some (some v) → (∀ j, j < i → s[j]? = some none) →
      firstValid s = some v := by
  intro s
  induction s with
  | nil => intro i v h _; simp at h
  | cons x tl ih =>
    intro i v h hj
    cases i with
    | zero =>
      simp only [List.getElem?_cons_zero, Option.some.injEq] at h
      subst h
      simp [firstValid]
    | succ i' =>
      have hx : x = none := by
        have := hj 0 (Nat.succ_pos _)
        simpa using this
      subst hx
      have htl := ih i' v (by simpa using h)
        (fun j hjlt => by simpa using hj (j + 1) (Nat.succ_lt_succ hjlt))
      simpa [firstValid] using htl

/-- A series with no valid entry has no values. -/
theorem filterMap_id_eq_nil_of_no_valid {t : List (Option ℚ)}
    (h : ∀ (j : ℕ) (w : ℚ), t[j]? ≠ some (some w)) : t.filterMap id = [] := by
  induction t with
  | nil => rfl
  | cons x tl ih =>
    cases x with
    | some w => exact absurd (by simp : (some w :: tl)[0]? = some (some w)) (h 0 w)
    | none =>
      have heq : (none :: tl).filterMap id = tl.filterMap id := by simp
      rw [heq]
      exact ih (fun j w hc => h (j + 1) w (by simpa using hc))

/-- A series with a valid entry has a value. -/
theorem filterMap_id_ne_nil_of_valid {t : List (Option ℚ)} {i : ℕ} {v : ℚ}
    (h : t[i]? = some (some v)) : t.filterMap id ≠ [] := by
  intro hc
  have hmem : some v ∈ t := List.mem_iff_getElem?.mpr ⟨i, h⟩
  have : v ∈ t.filterMap id := List.mem_filterMap.mpr ⟨some v, hmem, rfl⟩
  rw [hc] at this
  cases this

/-- lastValid returns the value at a valid position above which no position
is valid. -/
theorem lastValid_eq :
    ∀ (s : List (Option ℚ)) (i : ℕ) (v : ℚ),
      s[i]? = some (some v) → (∀ j w, s[j]? = some (some w) → j ≤ i) →
      lastValid s = some v := by
  intro s
  induction s with
  | nil => intro i v h _; simp at h
  | cons x tl ih =>
    intro i v h hb
    cases i with
    | zero =>
      simp only [List.getElem?_cons_zero, Option.some.injEq] at h
      subst h
      have hnotl : ∀ (j : ℕ) (w : ℚ), tl[j]? ≠ some (some w) := by
        intro j w hc
        have := hb (j + 1) w (by simpa using hc)
        omega
      unfold lastValid
      have heq : (some v :: tl).filterMap id = v :: tl.filterMap id := by simp
      rw [heq, filterMap_id_eq_nil_of_no_valid hnotl]
      rfl
    | succ i' =>
      have htlv : tl[i']? = some (some v) := by simpa using h
      have htl := ih i' v htlv
        (fun j w hc => by
          have := hb (j + 1) w (by simpa using hc)
          omega)
      have hne := filterMap_id_ne_nil_of_valid htlv
      cases x with
      | none =>
        unfold lastValid at htl ⊢
        have heq : (none :: tl).filterMap id = tl.filterMap id := by simp
        rw [heq]
        exact htl
      | some w =>
        unfold lastValid at htl ⊢
        have heq : (some w :: tl).filterMap id = w :: tl.filterMap id := by simp
        rw [heq]
        rcases hfm : tl.filterMap id with _ | ⟨c, l'⟩
        · exact absurd hfm hne
        · rw [hfm] at htl
          rw [List.getLast?_cons_cons]
          exact htl

/-- Linear interpolation preserves the series length. -/
theorem length_linear_interpolate (s : List (Option ℚ)) :
    (linear_interpolate s).length = s.length := by
  simp [linear_interpolate]

/-- Linear interpolation leaves valid entries unchanged. -/
theorem linear_interpolate_preserves {s : List (Option ℚ)} {i : ℕ} {v : ℚ}
    (h : s[i]? = some (some v)) :
    (linear_interpolate s)[i]? = some (some v) := by
  unfold linear_interpolate
  rw [List.getElem?_mapIdx, h]
  rfl

/-- The valid entries are exactly the positions holding a value. -/
theorem mem_validEntries {s : List (Option ℚ)} {j : ℕ} {w : ℚ} :
    (j, w) ∈ validEntries s ↔ s[j]? = some (some w) := by
  unfold validEntries
  constructor
  · intro h
    rcases List.mem_filterMap.mp h with ⟨⟨j1, x⟩, hmem, hfx⟩
    cases x with
    | none => simp at hfx
    | some u =>
      simp only [Option.map_some'] at hfx
      cases hfx
      have := List.mem_enum_iff_getElem?.mp hmem
      simpa using this
  · intro h
    refine List.mem_filterMap.mpr ⟨(j, some w), ?_, by simp⟩
    exact List.mem_enum_iff_getElem?.mpr (by simpa using h)

/-- A previous-valid result is a valid entry strictly before the position. -/
theorem prevValid_spec {s : List (Option ℚ)} {i : ℕ} {jv : ℕ × ℚ}
    (h : prevValid s i = some jv) :
    s[jv.1]? = some (some jv.2) ∧ jv.1 < i := by
  unfold prevValid at h
  have hmem : jv ∈ (validEntries s).filter (fun jv => decide (jv.1 < i)) :=
    List.mem_of_mem_getLast? (by rw [h]; rfl)
  have h1 := List.mem_filter.mp hmem
  exact ⟨mem_validEntries.mp (by
      have := h1.1
      cases jv
      exact this),
    of_decide_eq_true h1.2⟩

/-- A next-valid result is a valid entry strictly after the position. -/
theorem nextValid_spec {s : List (Option ℚ)} {i : ℕ} {jv : ℕ × ℚ}
    (h : nextValid s i = some jv) :
    s[jv.1]? = some (some jv.2) ∧ i < jv.1 := by
  unfold nextValid at h
  have hmem : jv ∈ (validEntries s).filter (fun jv => decide (i < jv.1)) :=
    List.mem_of_mem_head? (by rw [h]; rfl)
  have h1 := List.mem_filter.mp hmem
  exact ⟨mem_validEntries.mp (by
      have := h1.1
      cases jv
      exact this),
    of_decide_eq_true h1.2⟩

/-- A missing position of a series with some valid entry elsewhere has a
valid neighbour on at least one side. -/
theorem prev_or_next_valid {s : List (Option ℚ)} {i j0 : ℕ} {w0 : ℚ}
    (hm : s[j0]? = some (some w0)) (hij : j0 ≠ i) :
    (prevValid s i).isSome ∨ (nextValid s i).isSome := by
  have hmem : (j0, w0) ∈ validEntries s := mem_validEntries.mpr hm
  rcases Nat.lt_or_ge j0 i with hlt | hge
  · left
    have : (j0, w0) ∈ (validEntries s).filter (fun jv => decide (jv.1 < i)) :=
      List.mem_filter.mpr ⟨hmem, by simpa using hlt⟩
    unfold prevValid
    rw [List.getLast?_isSome]
    exact List.ne_nil_of_mem this
  · right
    have hgt : i < j0 := by omega
    have : (j0, w0) ∈ (validEntries s).filter (fun jv => decide (i < jv.1)) :=
      List.mem_filter.mpr ⟨hmem, by simpa using hgt⟩
    unfold nextValid
    rw [List.head?_isSome]
    exact List.ne_nil_of_mem this

/-- Linear interpolation of a series whose every valid entry holds the same
value fills the whole series with that value. -/
theorem linear_interpolate_const {s : List (Option ℚ)} {c : ℚ}
    (hc : ∀ (j : ℕ) (w : ℚ), s[j]? = some (some w) → w = c)
    (hex : ∃ (j0 : ℕ) (w0 : ℚ), s[j0]? = some (some w0)) :
    ∀ i, i < s.length → (linear_interpolate s)[i]? = some (some c) := by
  intro i hi
  obtain ⟨j0, w0, h0⟩ := hex
  unfold linear_interpolate
  rw [List.getElem?_mapIdx]
  rcases hx : s[i]? with _ | x
  · rw [List.getElem?_eq_none_iff] at hx
    omega
  · cases x with
    | some v =>
      have : v = c := hc i v hx
      subst this
      rfl
    | none =>
      have hij : j0 ≠ i := fun hc2 => by rw [hc2, hx] at h0; cases h0
      simp only [Option.map_some']
      rcases hp : prevValid s i with _ | jv
      · rcases hn : nextValid s i with _ | kv
        · rcases prev_or_next_valid h0 hij with hs | hs
          · rw [hp] at hs; cases hs
          · rw [hn] at hs; cases hs
        · have hk := nextValid_spec hn
          have : kv.2 = c := hc kv.1 kv.2 hk.1
          dsimp only
          rw [this]
      · rcases hn : nextValid s i with _ | kv
        · have hj := prevValid_spec hp
          have : jv.2 = c := hc jv.1 jv.2 hj.1
          dsimp only
          rw [this]
        · have hj := prevValid_spec hp
          have hk := nextValid_spec hn
          have e1 : jv.2 = c := hc jv.1 jv.2 hj.1
          have e2 : kv.2 = c := hc kv.1 kv.2 hk.1
          dsimp only
          rw [e1, e2]
          have : c + (c - c) * ((i : ℚ) - (jv.1 : ℚ)) / ((kv.1 : ℚ) - (jv.1 : ℚ)) = c := by
            ring
          rw [this]

/-- Unfolding of key_frame_inbetweens through its two clamping matches. -/
theorem key_frame_inbetweens_spec_aux
    (interp : InterpMethod → List (Option ℚ) → List (Option ℚ))
    (kf : List (ℕ × ℚ)) (mf : ℕ) (int : Bool) (im : InterpMethod)
    (s1 sA sB sC : List (Option ℚ)) (fv lv : ℚ)
    (hs1 : s1 = kf.foldl (fun s iv => s.set iv.1 (some iv.2))
      (List.replicate mf none))
    (hfv : firstValid s1 = some fv)
    (hsA : sA = s1.set 0 (some fv))
    (hlv : lastValid sA = some lv)
    (hsB : sB = sA.set (mf - 1) (some lv))
    (hsC : sC = interp (effective_interp_method im kf.length) sB) :
    key_frame_inbetweens interp kf mf int im
      = some (if int then sC.map (Option.map (pyInt true)) else sC) := by
  subst hsC hsB hsA hs1
  simp only [key_frame_inbetweens, hfv, hlv]

/-- C4: for every interpolation engine satisfying the library contract —
length preserved, valid entries preserved, the 'linear' method implemented
by linear_interpolate — and every non-empty keyframe map with pairwise
distinct in-range keys and max_frames ≥ 2: the expansion returns a series of
length max_frames whose position 0 holds the value at the first (least-index)
defined keyframe and whose position max_frames-1 holds the value at the last
(greatest-index) defined keyframe, both truncated when integer output is
requested, even when frames 0 and max_frames-1 are not keys of the map; and
a single-entry map produces a constant series. -/
theorem key_frame_inbetweens_clamps
    (interp : InterpMethod → List (Option ℚ) → List (Option ℚ))
    (hlen : ∀ m s, (interp m s).length = s.length)
    (hpres : ∀ (m : InterpMethod) (s : List (Option ℚ)) (i : ℕ) (v : ℚ),
      s[i]? = some (some v) → (interp m s)[i]? = some (some v))
    (hlin : ∀ s, interp .Linear s = linear_interpolate s)
    (key_frames : List (ℕ × ℚ)) (max_frames : ℕ) (integer : Bool)
    (interp_method : InterpMethod)
    (hne : key_frames ≠ [])
    (hkeys : ∀ kv ∈ key_frames, kv.1 < max_frames)
    (hnd : (key_frames.map Prod.fst).Nodup)
    (hmf : 2 ≤ max_frames) :
    ∃ series,
      key_frame_inbetweens interp key_frames max_frames integer interp_method
        = some series ∧
      series.length = max_frames ∧
      (∀ kmin vmin, (kmin, vmin) ∈ key_frames →
        (∀ kv ∈ key_frames, kmin ≤ kv.1) →
        series[0]? = some (some (pyInt integer vmin))) ∧
      (∀ kmax vmax, (kmax, vmax) ∈ key_frames →
        (∀ kv ∈ key_frames, kv.1 ≤ kmax) →
        series[max_frames - 1]? = some (some (pyInt integer vmax))) ∧
      (∀ (k : ℕ) (v : ℚ), key_frames = [(k, v)] →
        ∀ x ∈ series, x = some (pyInt integer v)) := by
  obtain ⟨⟨k0, v0⟩, rest, hkf0⟩ : ∃ hd tl, key_frames = hd :: tl := by
    cases key_frames with
    | nil => exact absurd rfl hne
    | cons a b => exact ⟨a, b, rfl⟩
  have hmem0 : (k0, v0) ∈ key_frames := by
    rw [hkf0]
    exact List.mem_cons_self _ _
  set s1 := key_frames.foldl (fun s iv => s.set iv.1 (some iv.2))
    (List.replicate max_frames none) with hs1
  have hlen1 : s1.length = max_frames := by
    rw [hs1, length_foldl_set]
    simp
  have hkeys' : ∀ kv ∈ key_frames,
      kv.1 < (List.replicate max_frames (none : Option ℚ)).length := by
    simpa using hkeys
  have hget1 : ∀ i : ℕ, s1[i]?
      = match lastAssoc i key_frames with
        | some v => some (some v)
        | none => (List.replicate max_frames (none : Option ℚ))[i]? := by
    intro i
    rw [hs1]
    exact getElem?_foldl_set _ _ i hkeys'
  have hmem1 : ∀ (j : ℕ) (w : ℚ), (j, w) ∈ key_frames →
      s1[j]? = some (some w) := by
    intro j w hjw
    rw [hget1 j]
    have hsome := lastAssoc_isSome_of_mem hjw
    rcases hla : lastAssoc j key_frames with _ | u
    · rw [hla] at hsome
      simp at hsome
    · have hu : (j, u) ∈ key_frames := lastAssoc_mem hla
      have : u = w := nodup_keys_value_unique hnd hu hjw
      rw [this]
  have hvalid1 : ∀ (j : ℕ) (w : ℚ), s1[j]? = some (some w) →
      (j, w) ∈ key_frames := by
    intro j w hjw
    rw [hget1 j] at hjw
    rcases hla : lastAssoc j key_frames with _ | u
    · rw [hla] at hjw
      by_cases hj : j < max_frames
      · rw [List.getElem?_replicate, if_pos hj] at hjw
        cases hjw
      · rw [List.getElem?_replicate, if_neg hj] at hjw
        cases hjw
    · rw [hla] at hjw
      cases hjw
      exact lastAssoc_mem hla
  have hfvS : (firstValid s1).isSome := by
    unfold firstValid
    rw [List.head?_isSome]
    exact filterMap_id_ne_nil_of_valid (hmem1 k0 v0 hmem0)
  obtain ⟨fv, hfv⟩ := Option.isSome_iff_exists.mp hfvS
  set sA := s1.set 0 (some fv) with hsA
  have hlenA : sA.length = max_frames := by
    rw [hsA, List.length_set, hlen1]
  have hA0 : sA[0]? = some (some fv) := by
    rw [hsA]
    exact List.getElem?_set_self (by rw [hlen1]; omega)
  have hAj : ∀ j : ℕ, j ≠ 0 → sA[j]? = s1[j]? := by
    intro j hj
    rw [hsA]
    exact List.getElem?_set_ne (Ne.symm hj)
  have hlvS : (lastValid sA).isSome := by
    unfold lastValid
    rw [List.getLast?_isSome]
    exact filterMap_id_ne_nil_of_valid hA0
  obtain ⟨lv, hlv⟩ := Option.isSome_iff_exists.mp hlvS
  set sB := sA.set (max_frames - 1) (some lv) with hsB
  set sC := interp (effective_interp_method interp_method key_frames.length) sB
    with hsC
  have hlenB : sB.length = max_frames := by
    rw [hsB, List.length_set, hlenA]
  have hlenC : sC.length = max_frames := by
    rw [hsC, hlen, hlenB]
  have hkfi := key_frame_inbetweens_spec_aux interp key_frames max_frames
    integer interp_method s1 sA sB sC fv lv hs1 hfv hsA hlv hsB hsC
  have hBlast : sB[max_frames - 1]? = some (some lv) := by
    rw [hsB]
    exact List.getElem?_set_self (by rw [hlenA]; omega)
  have hB0 : sB[0]? = some (some fv) := by
    rw [hsB, List.getElem?_set_ne (by omega : max_frames - 1 ≠ 0)]
    exact hA0
  refine ⟨if integer then sC.map (Option.map (pyInt true)) else sC,
    hkfi, ?_, ?_, ?_, ?_⟩
  · cases integer <;> simp [hlenC]
  · intro kmin vmin hmemmin hmin
    have hfv2 : firstValid s1 = some vmin := by
      apply firstValid_eq s1 kmin vmin (hmem1 _ _ hmemmin)
      intro j hj
      rw [hget1 j]
      have hno : lastAssoc j key_frames = none := by
        apply lastAssoc_eq_none_of_no_key
        intro kv hkv hceq
        have := hmin kv hkv
        omega
      rw [hno]
      have hjmf : j < max_frames := by
        have := hkeys (kmin, vmin) hmemmin
        omega
      rw [List.getElem?_replicate, if_pos hjmf]
    have hfveq : fv = vmin := by
      rw [hfv] at hfv2
      cases hfv2
      rfl
    rw [← hfveq]
    have hC0 : sC[0]? = some (some fv) := by
      rw [hsC]
      exact hpres _ _ _ _ hB0
    cases integer
    · simpa using hC0
    · simp [List.getElem?_map, hC0]
  · intro kmax vmax hmemmax hmax
    have hlv2 : lastValid sA = some vmax := by
      apply lastValid_eq sA kmax vmax
      · by_cases hk0 : kmax = 0
        · subst hk0
          have hfv0 : firstValid s1 = some vmax :=
            firstValid_eq s1 0 vmax (hmem1 _ _ hmemmax)
              (fun j hj => absurd hj (Nat.not_lt_zero j))
          rw [hfv] at hfv0
          cases hfv0
          exact hA0
        · rw [hAj kmax hk0]
          exact hmem1 _ _ hmemmax
      · intro j w hjw
        by_cases hj0 : j = 0
        · omega
        · rw [hAj j hj0] at hjw
          exact hmax _ (hvalid1 j w hjw)
    have hlveq : lv = vmax := by
      rw [hlv] at hlv2
      cases hlv2
      rfl
    rw [← hlveq]
    have hCl : sC[max_frames - 1]? = some (some lv) := by
      rw [hsC]
      exact hpres _ _ _ _ hBlast
    cases integer
    · simpa using hCl
    · simp [List.getElem?_map, hCl]
  · intro k v hkfeq
    have hmemkv : (k, v) ∈ key_frames := by
      rw [hkfeq]
      exact List.mem_cons_self _ _
    have hkmf : k < max_frames := hkeys (k, v) hmemkv
    have honly : ∀ (j : ℕ) (w : ℚ), (j, w) ∈ key_frames → j = k ∧ w = v := by
      intro j w hjw
      rw [hkfeq] at hjw
      rcases List.mem_cons.mp hjw with h1 | h1
      · exact ⟨(Prod.mk.injEq .. ▸ h1).1, (Prod.mk.injEq .. ▸ h1).2⟩
      · cases h1
    have hfv_v : fv = v := by
      have hfv2 : firstValid s1 = some v := by
        apply firstValid_eq s1 k v (hmem1 _ _ hmemkv)
        intro j hj
        rw [hget1 j]
        have hno : lastAssoc j key_frames = none := by
          apply lastAssoc_eq_none_of_no_key
          intro kv hkv hceq
          have := honly kv.1 kv.2 (by simpa using hkv)
          omega
        rw [hno, List.getElem?_replicate, if_pos (by omega)]
      rw [hfv] at hfv2
      cases hfv2
      rfl
    have hlv_v : lv = v := by
      have hlv2 : lastValid sA = some v := by
        apply lastValid_eq sA k v
        · by_cases hk0 : k = 0
          · subst hk0
            rw [hA0, hfv_v]
          · rw [hAj k hk0]
            exact hmem1 _ _ hmemkv
        · intro j w hjw
          by_cases hj0 : j = 0
          · omega
          · rw [hAj j hj0] at hjw
            have := honly j w (hvalid1 j w hjw)
            omega
      rw [hlv] at hlv2
      cases hlv2
      rfl
    have hconst : ∀ (j : ℕ) (w : ℚ), sB[j]? = some (some w) → w = v := by
      intro j w hjw
      by_cases hjl : j = max_frames - 1
      · subst hjl
        rw [hBlast] at hjw
        cases hjw
        exact hlv_v
      · rw [hsB, List.getElem?_set_ne (Ne.symm hjl)] at hjw
        by_cases hj0 : j = 0
        · subst hj0
          rw [hA0] at hjw
          cases hjw
          exact hfv_v
        · rw [hAj j hj0] at hjw
          exact (honly j w (hvalid1 j w hjw)).2
    have hexB : sB[0]? = some (some v) := by
      rw [hB0, hfv_v]
    have hlinm : effective_interp_method interp_method key_frames.length
        = .Linear := by
      rw [hkfeq]
      cases interp_method <;> rfl
    have hsC2 : sC = linear_interpolate sB := by
      rw [hsC, hlinm, hlin]
    have hCall : ∀ i, i < sB.length → sC[i]? = some (some v) := by
      rw [hsC2]
      exact linear_interpolate_const hconst ⟨0, v, hexB⟩
    intro x hx
    cases integer
    · simp only [Bool.false_eq_true, if_false] at hx
      obtain ⟨i, hi⟩ := List.mem_iff_getElem?.mp hx
      obtain ⟨hilt, -⟩ := List.getElem?_eq_some_iff.mp hi
      have := hCall i (by omega)
      rw [hi] at this
      cases this
      rfl
    · simp only [if_true] at hx
      rcases List.mem_map.mp hx with ⟨y, hy, hxy⟩
      obtain ⟨i, hi⟩ := List.mem_iff_getElem?.mp hy
      obtain ⟨hilt, -⟩ := List.getElem?_eq_some_iff.mp hi
      have := hCall i (by omega)
      rw [hi] at this
      cases this
      rw [← hxy]
      rfl

/-- Concrete instance of the clamping contract: the single-entry map binding
frame 2 to 7, expanded over 5 frames with integer output and a Cubic
request, yields a constant series of five entries all equal to 7. -/
theorem key_frame_inbetweens_clamps_witness :
    ∃ series,
      key_frame_inbetweens linear_engine [(2, (7 : ℚ))] 5 true .Cubic
        = some series ∧
      series.length = 5 ∧
      (∀ kmin vmin, (kmin, vmin) ∈ [(2, (7 : ℚ))] →
        (∀ kv ∈ [(2, (7 : ℚ))], kmin ≤ kv.1) →
        series[0]? = some (some (pyInt true vmin))) ∧
      (∀ kmax vmax, (kmax, vmax) ∈ [(2, (7 : ℚ))] →
        (∀ kv ∈ [(2, (7 : ℚ))], kv.1 ≤ kmax) →
        series[5 - 1]? = some (some (pyInt true vmax))) ∧
      (∀ (k : ℕ) (v : ℚ), [(2, (7 : ℚ))] = [(k, v)] →
        ∀ x ∈ series, x = some (pyInt true v)) :=
  key_frame_inbetweens_clamps linear_engine
    (fun _ s => length_linear_interpolate s)
    (fun _ _ _ _ h => linear_interpolate_preserves h)
    (fun _ => rfl)
    [(2, (7 : ℚ))] 5 true .Cubic
    (by decide) (by decide) (by decide) (by decide)

end StabilitySdk
